import Mathlib

/-!
Verification development for the `disku` threshold-alerting engine
(`disku.py`).  The Python source is shallowly embedded: strings are
handled as `List Char` (via `String.data`), Python `int(...)` parsing,
the size/interval parsers, the condition grammar of `AlertCheck.parse`,
the (case-insensitive) dictionary used by evaluation, the evaluator
`AlertCheck.__call__`, the `AlertBuffer` debounce state machine and the
`AlertChannel` cache are all given as executable Lean definitions.
Python exceptions are modelled with `Except PyErr`; Python floats that
arise from `/` and from percentage thresholds are modelled as `ℚ`;
wall-clock time (`time.time()`) is an explicit `ℚ` parameter sampled
once per `push`.
-/

/-- Exception kinds the embedded code can raise, mirroring the Python
exception classes that the relevant code paths can produce. -/
inductive PyErr where
  | valueError
  | typeError
  | keyError
  | indexError
  | zeroDivisionError
deriving DecidableEq

/-- Decidable equality for `Except`, so that concrete runs of the
embedded fallible functions can be checked by `decide`. -/
instance {ε α : Type} [DecidableEq ε] [DecidableEq α] : DecidableEq (Except ε α) := fun x y =>
  match x, y with
  | .ok a, .ok b =>
    if h : a = b then .isTrue (by rw [h]) else .isFalse (by simp [h])
  | .error a, .error b =>
    if h : a = b then .isTrue (by rw [h]) else .isFalse (by simp [h])
  | .ok _, .error _ => .isFalse (by simp)
  | .error _, .ok _ => .isFalse (by simp)

/-- ASCII whitespace recognised by Python's `str.strip` / regex `\s`
(the embedding restricts attention to ASCII input). -/
def isPySpace (c : Char) : Bool :=
  c = ' ' || c = '\t' || c = '\n' || c = '\x0d' || c = '\x0b' || c = '\x0c'

/-- Word characters of the regex class `\w` (ASCII fragment). -/
def isWordChar (c : Char) : Bool :=
  c.isAlphanum || c = '_'

/-- Characters matching the regex class `[1-9]`. -/
def isNonzeroDigit (c : Char) : Bool :=
  '1' ≤ c && c ≤ '9'

/-- Numeric value of a list of decimal digits (most significant first). -/
def digitsToNat (ds : List Char) : Nat :=
  ds.foldl (fun a c => a * 10 + (c.toNat - 48)) 0

/-- Drop leading ASCII whitespace. -/
def trimL (l : List Char) : List Char := l.dropWhile isPySpace

/-- Drop trailing ASCII whitespace. -/
def trimR (l : List Char) : List Char := (l.reverse.dropWhile isPySpace).reverse

/-- Tail of a valid Python integer literal: decimal digits with single
underscores allowed between digits (as accepted by `int(...)`). -/
def pyIntTail : List Char → Bool
  | [] => true
  | '_' :: rest =>
    match rest with
    | [] => false
    | c :: cs => c.isDigit && pyIntTail cs
  | c :: cs => c.isDigit && pyIntTail cs

/-- Digit part of a Python integer literal: nonempty, starts with a
digit, then `pyIntTail`. -/
def pyIntDigits : List Char → Bool
  | [] => false
  | c :: cs => c.isDigit && pyIntTail cs

/-- Value of the digit part, ignoring underscores. -/
def undVal (l : List Char) : Nat :=
  digitsToNat (l.filter (fun c => c ≠ '_'))

/-- Python's `int(s)` for `str` input: optional surrounding whitespace,
optional sign, then digits with optional single underscores.  Returns
`none` where `int` raises `ValueError`. -/
def pyInt (s : String) : Option Int :=
  match trimR (trimL s.data) with
  | '+' :: rest => if pyIntDigits rest then some (undVal rest : Int) else none
  | '-' :: rest => if pyIntDigits rest then some (-(undVal rest : Int)) else none
  | rest => if pyIntDigits rest then some (undVal rest : Int) else none

/-- Ordered suffix list of `parse_size_string` (the Python default
argument `suffixes='KMGTPEZY'`). -/
def sizeSuffixes : List Char := ['K', 'M', 'G', 'T', 'P', 'E', 'Z', 'Y']

/-- Position of a character in `sizeSuffixes` (Python `str.find`,
returning `none` for `-1`). -/
def suffixIdx (c : Char) : Option Nat :=
  sizeSuffixes.findIdx? (fun x => x = c)

/-- Embedding of `parse_size_string(s)`: look at `s[-1].upper()`
(raising `IndexError` on empty input); if it is a recognised suffix,
parse `s[:-1]` as an integer and scale by `1024 ** (suffix_idx + 1)`,
otherwise parse the whole string as an integer.  A failing `int(...)`
surfaces as `ValueError`. -/
def parse_size_string (s : String) : Except PyErr Int :=
  match s.data.getLast? with
  | none => .error .indexError
  | some last =>
    match suffixIdx last.toUpper with
    | none =>
      match pyInt s with
      | some n => .ok n
      | none => .error .valueError
    | some i =>
      match pyInt (String.mk s.data.dropLast) with
      | some n => .ok (n * 1024 ^ (i + 1))
      | none => .error .valueError

/-- Seconds per time unit, mirroring the `suffixes` dict of
`parse_time_interval`. -/
def unitSeconds (c : Char) : Option Nat :=
  if c = 's' then some 1
  else if c = 'm' then some 60
  else if c = 'h' then some 3600
  else if c = 'd' then some 86400
  else none

/-- Scanner state for the interval grammar: either between tokens
(`top`) or inside the digit run of a `<positive-int><unit>` pair, with
the digits read so far accumulated into `acc`. -/
inductive ScanSt where
  | top
  | num (acc : Nat)

/-- Deterministic matcher/summer for the interval grammar
`(?:(?:[1-9]\d*[smhd])+|\s)+` of `parse_time_interval`: the input must
be a concatenation of whitespace characters and `<positive-int><unit>`
pairs; on a match the result is the sum of `value * unit_seconds` over
all pairs — exactly what the `re.finditer` loop computes on a
`re.fullmatch`-ed string.  Returns `none` where the regex does not
match.  The scan is equivalent to the regex because the grammar is
deterministic: a pair starts with `[1-9]`, whitespace is never a digit,
and a pair's digit run is maximal since no unit letter is a digit. -/
def scanStep : ScanSt → List Char → Option Nat
  | .top, [] => some 0
  | .top, c :: cs =>
    if isPySpace c then scanStep .top cs
    else if isNonzeroDigit c then scanStep (.num (c.toNat - 48)) cs
    else none
  | .num _, [] => none
  | .num acc, c :: cs =>
    if c.isDigit then scanStep (.num (acc * 10 + (c.toNat - 48))) cs
    else
      match unitSeconds c with
      | some k => (scanStep .top cs).map (fun t => acc * k + t)
      | none => none

/-- Matcher/summer for the full interval grammar, started in the `top`
state. -/
def scanInterval (l : List Char) : Option Nat :=
  scanStep .top l

/-- Embedding of `parse_time_interval(s)`: first try `int(s)`; otherwise
require the full-string interval grammar and sum the pairs; raise
`ValueError` (the Python `ParseError`) on anything else.  The empty
string fails the regex (`(...)+` needs at least one repetition), hence
the nonemptiness guard. -/
def parse_time_interval (s : String) : Except PyErr Int :=
  match pyInt s with
  | some n => .ok n
  | none =>
    if s.data.isEmpty then .error .valueError
    else
      match scanInterval s.data with
      | some t => .ok (t : Int)
      | none => .error .valueError

/-- Specification-level description of the interval grammar together
with its sum: `IntervalSum l t` holds exactly when `l` is a
concatenation of whitespace characters and `<positive-int><unit>` pairs
whose values (times the unit's seconds) sum to `t`. -/
inductive IntervalSum : List Char → Nat → Prop where
  | nil : IntervalSum [] 0
  | ws {c : Char} {l : List Char} {t : Nat} :
      isPySpace c = true → IntervalSum l t → IntervalSum (c :: l) t
  | pair {d : Char} {ds : List Char} {u : Char} {k : Nat} {l : List Char} {t : Nat} :
      isNonzeroDigit d = true → (∀ c ∈ ds, c.isDigit = true) →
      unitSeconds u = some k → IntervalSum l t →
      IntervalSum (d :: (ds ++ u :: l)) (digitsToNat (d :: ds) * k + t)

/-- Comparison operators admitted by the condition grammar
(`[<>]=?|==`), the closed counterpart of `BinaryOperator`. -/
inductive Op where
  | lt
  | le
  | gt
  | ge
  | eq
deriving DecidableEq

/-- Numeric meaning of a comparison operator, as the Python expression
`lambda l, r: l <op> r` computes it on numbers. -/
def Op.apply : Op → ℚ → ℚ → Bool
  | .lt, a, b => decide (a < b)
  | .le, a, b => decide (a ≤ b)
  | .gt, a, b => decide (b < a)
  | .ge, a, b => decide (b ≤ a)
  | .eq, a, b => decide (a = b)

/-- Parsed threshold of a condition, keeping the Python type
distinction that evaluation dispatches on: `parse_val` yields a `float`
(here `pct`) exactly for `%` literals and an `int` (here `size`)
otherwise. -/
inductive Thresh where
  | pct (q : ℚ)
  | size (n : Int)
deriving DecidableEq

/-- Python `isinstance(val, float)` on a parsed threshold. -/
def Thresh.isPct : Thresh → Bool
  | .pct _ => true
  | .size _ => false

/-- Numeric value of a threshold as used in comparisons. -/
def Thresh.val : Thresh → ℚ
  | .pct q => q
  | .size n => (n : ℚ)

/-- One parsed condition, i.e. one `(var, BinaryOperator(op), parse_val(val),
raw)` tuple appended by `AlertCheck.parse`. -/
structure Condition where
  var : String
  op : Op
  thr : Thresh
  raw : String
deriving DecidableEq

/-- Operator parser for the regex fragment `(?P<op>[<>]=?|==)`; the
regex alternatives are tried greedily, so `<=`/`>=` win over `<`/`>`,
and no backtracking to the short form can succeed because the value
grammar never starts with `=`. -/
def parseOp : List Char → Option (Op × List Char)
  | '<' :: '=' :: rest => some (.le, rest)
  | '<' :: rest => some (.lt, rest)
  | '>' :: '=' :: rest => some (.ge, rest)
  | '>' :: rest => some (.gt, rest)
  | '=' :: '=' :: rest => some (.eq, rest)
  | _ => none

/-- Shape check of a size literal `[1-9]\d*[KMGTP]?` after its first
character: digits followed by at most one uppercase unit from `K..P`. -/
def digitsOptUnit : List Char → Bool
  | [] => true
  | [c] => c.isDigit || (c = 'K' || c = 'M' || c = 'G' || c = 'T' || c = 'P')
  | c :: rest => c.isDigit && digitsOptUnit rest

/-- Full-match check for the value group of the condition regex:
`100%|0%|[1-9]\d?%|[1-9]\d*[KMGTP]?`. -/
def valShapeOk (l : List Char) : Bool :=
  l = ['1', '0', '0', '%'] ||
  l = ['0', '%'] ||
  (match l with
   | [d, '%'] => isNonzeroDigit d
   | [d, e, '%'] => isNonzeroDigit d && e.isDigit
   | _ => false) ||
  (match l with
   | d :: rest => isNonzeroDigit d && digitsOptUnit rest
   | [] => false)

/-- Embedding of the inner `parse_val(v)` of `AlertCheck.parse`: a
literal ending in `%` becomes the float `int(v[:-1]) / 100.0`, anything
else goes through `parse_size_string`. -/
def parse_val (v : List Char) : Except PyErr Thresh :=
  if v.getLast? = some '%' then
    match pyInt (String.mk v.dropLast) with
    | some n => .ok (.pct ((n : ℚ) / 100))
    | none => .error .valueError
  else
    (parse_size_string (String.mk v)).map .size

/-- Embedding of `re.fullmatch(re_cmp, cond)` followed by the tuple
construction of `AlertCheck.parse`: greedy `\w+` variable, optional
whitespace, operator, optional whitespace, then the value group which
must consume the rest of the fragment.  Greediness is deterministic
here: shortening `\w+` or `\s*` makes the next regex token face a word
or space character it cannot match.  `m.group(0)` of a fullmatch is the
whole fragment, so `raw` is the fragment itself. -/
def parseCond (s : String) : Option Condition :=
  let l := s.data
  let var := l.takeWhile isWordChar
  if var.isEmpty then none
  else
    match parseOp ((l.dropWhile isWordChar).dropWhile isPySpace) with
    | none => none
    | some (op, r2) =>
      let v := r2.dropWhile isPySpace
      if valShapeOk v then
        match parse_val v with
        | .ok th => some ⟨String.mk var, op, th, s⟩
        | .error _ => none
      else none

/-- Splitting a character list at every comma (Python `s.split(',')`
restricted to a one-character separator). -/
def splitComma : List Char → List (List Char)
  | [] => [[]]
  | ',' :: rest => [] :: splitComma rest
  | c :: rest =>
    match splitComma rest with
    | [] => [[c]]
    | p :: ps => (c :: p) :: ps

/-- Trimming of the inner comma-split fragments produced by
`re.split(r'\s*,\s*', ...)`: each separator's whitespace belongs to the
separator, so interior fragments lose whitespace on both sides while
the final fragment keeps its trailing whitespace. -/
def trimSplitTail : List (List Char) → List String
  | [] => []
  | [q] => [String.mk (trimL q)]
  | q :: qs => String.mk (trimR (trimL q)) :: trimSplitTail qs

/-- Embedding of `re.split(r'\s*,\s*', s)`: split on commas, where each
separator greedily swallows the whitespace run just before and just
after its comma.  Equivalently: split on `','`, then strip trailing
whitespace from every fragment but the last and leading whitespace from
every fragment but the first. -/
def splitConds (s : String) : List String :=
  match splitComma s.data with
  | [] => []
  | [p] => [String.mk p]
  | p :: ps => String.mk (trimR p) :: trimSplitTail ps

/-- The parsing loop of `AlertCheck.parse`: parse each comma-separated
fragment in order, failing (so that `AlertCheck.__init__` raises
`ValueError` and no object is returned) as soon as one fragment does
not match the condition regex. -/
def parseAll : List String → Option (List Condition)
  | [] => some []
  | f :: fs =>
    match parseCond f with
    | none => none
    | some c => (parseAll fs).map (fun cs => c :: cs)

/-- Embedding of `AlertCheck(conditions)` construction: `none` models a
`ValueError` escaping the constructor, `some cs` a successfully built
checker holding the parsed condition list. -/
def AlertCheck.parse (conditions : String) : Option (List Condition) :=
  parseAll (splitConds conditions)

/-- Lower-casing of a string at the character level (Python
`str.lower()` on ASCII input). -/
def lowerStr (s : String) : String :=
  String.mk (s.data.map Char.toLower)

/-- A Python dict is modelled as an association list in insertion
order with pairwise distinct keys; `CaseInsensitiveDict` wraps such a
list without changing the stored keys. -/
abbrev PyDict (α : Type) := List (String × α)

/-- Embedding of `CaseInsensitiveDict._find_key(key)`: the first stored
key equal to `key` up to lower-casing, in iteration (= insertion)
order, or `key` itself when none matches. -/
def findKeyCI (ks : List String) (key : String) : String :=
  match ks.find? (fun k => lowerStr k = lowerStr key) with
  | some k => k
  | none => key

/-- Embedding of `CaseInsensitiveDict.__contains__(key)`: membership of
`_find_key(key)` in the list of lower-cased keys.  Note that
`_find_key` returns the stored key in its original casing, which is
then compared against lower-cased keys. -/
def containsCI (ks : List String) (key : String) : Bool :=
  (ks.map lowerStr).contains (findKeyCI ks key)

/-- Embedding of `CaseInsensitiveDict.get(key, None)`: plain dict
lookup of `_find_key(key)`, defaulting to `None` (here `none`). -/
def getCI {α : Type} (m : PyDict α) (key : String) : Option α :=
  m.lookup (findKeyCI (m.map Prod.fst) key)

/-- Embedding of `CaseInsensitiveDict.__setitem__(key, val)`: plain
dict assignment at `_find_key(key)` — replace in place when that key is
stored, append otherwise. -/
def setCI {α : Type} (m : PyDict α) (key : String) (v : α) : PyDict α :=
  let k := findKeyCI (m.map Prod.fst) key
  if (m.map Prod.fst).contains k then
    m.map (fun p => if p.1 = k then (k, v) else p)
  else
    m ++ [(k, v)]

/-- Embedding of `AlertCheck.validate_params(disk_usage)`: the three
`in` checks on the `CaseInsensitiveDict`, conjoined. -/
def validate_params {α : Type} (du : PyDict α) : Bool :=
  containsCI (du.map Prod.fst) "used" &&
  containsCI (du.map Prod.fst) "free" &&
  containsCI (du.map Prod.fst) "total"

/-- Application of a parsed operator to `du.get(var)` and a threshold,
with Python's mixed-type semantics: comparing `None` with a number
raises `TypeError` for the order operators, while `None == number` is
simply `False`. -/
def applyOpt (op : Op) (l : Option ℚ) (r : ℚ) : Except PyErr Bool :=
  match l with
  | some x => .ok (op.apply x r)
  | none =>
    match op with
    | .eq => .ok false
    | _ => .error .typeError

/-- Variable actually looked up for a condition: `var += '_p'` exactly
when the threshold is a float (a percentage). -/
def resolvedVar (c : Condition) : String :=
  if c.thr.isPct then c.var ++ "_p" else c.var

/-- The condition loop of `AlertCheck.__call__`: first condition whose
comparison is true wins and its `raw` text is returned; `.ok none`
models the final `return False` (no alert). -/
def evalConds : List Condition → PyDict ℚ → Except PyErr (Option String)
  | [], _ => .ok none
  | c :: cs, du =>
    match applyOpt c.op (getCI du (resolvedVar c)) c.thr.val with
    | .error e => .error e
    | .ok true => .ok (some c.raw)
    | .ok false => evalConds cs du

/-- Derived-field construction of `AlertCheck.__call__`: read `used`,
`free` and `total` through the case-insensitive dict (a miss raises
`KeyError`, division by zero raises `ZeroDivisionError`) and store
`used_p` and `free_p`. -/
def buildDu (sample : PyDict ℚ) : Except PyErr (PyDict ℚ) :=
  match getCI sample "used", getCI sample "free", getCI sample "total" with
  | some u, some f, some t =>
    if t = 0 then .error .zeroDivisionError
    else .ok (setCI (setCI sample "used_p" (u / t)) "free_p" (f / t))
  | _, _, _ => .error .keyError

/-- Embedding of `AlertCheck.__call__(disk_usage)`: wrap the sample,
validate (raising `ValueError` on failure), add the `_p` fields, then
run the condition loop. -/
def AlertCheck.call (conds : List Condition) (sample : PyDict ℚ) :
    Except PyErr (Option String) :=
  if validate_params sample then
    match buildDu sample with
    | .ok du => evalConds conds du
    | .error e => .error e
  else .error .valueError

/-- State of an `AlertBuffer`: configured interval, flush deadline
`next_time` and the pending `buffer` dict (plain, case-sensitive).
Wall-clock values are rationals; the `fire` callback is modelled as the
optional batch returned by `push`. -/
structure AlertBuffer where
  interval : ℚ
  next_time : ℚ
  buffer : PyDict String
deriving DecidableEq

/-- Assignment in a plain Python dict: overwrite in place if the key is
present, append otherwise. -/
def dictSet {α : Type} (m : PyDict α) (key : String) (v : α) : PyDict α :=
  if (m.map Prod.fst).contains key then
    m.map (fun p => if p.1 = key then (key, v) else p)
  else
    m ++ [(key, v)]

/-- Embedding of `AlertBuffer.push(identifier, data)` at wall-clock
time `now` (`time.time()` is sampled once per call): store the message,
then flush — returning the fired batch — when `now` has reached the
deadline. -/
def AlertBuffer.push (st : AlertBuffer) (now : ℚ) (identifier data : String) :
    AlertBuffer × Option (PyDict String) :=
  let buf := dictSet st.buffer identifier data
  if st.next_time ≤ now then
    (⟨st.interval, now + st.interval, []⟩, some buf)
  else
    (⟨st.interval, st.next_time, buf⟩, none)

/-- One buffered push request: its wall-clock time, identifier and
message. -/
structure PushEvt where
  now : ℚ
  identifier : String
  data : String

/-- Trace semantics of an `AlertBuffer`: the class exposes exactly one
mutating operation (`push`), so a run is a fold of pushes; the second
component collects every batch handed to the `fire` callback. -/
def runPushes (st : AlertBuffer) : List PushEvt → AlertBuffer × List (PyDict String)
  | [] => (st, [])
  | e :: rest =>
    let step := st.push e.now e.identifier e.data
    let next := runPushes step.1 rest
    (next.1, (match step.2 with | some m => [m] | none => []) ++ next.2)

/-- State of the `AlertChannel` class-level cache: the `_channel_cache`
dict (name to instance, instances numbered), a fresh-instance counter,
and the log of `prepare()` invocations by instance. -/
structure ChannelState where
  cache : PyDict Nat
  nextId : Nat
  prepLog : List Nat
deriving DecidableEq

/-- Embedding of `AlertChannel.load` for a given channel `name`: return
the cached instance if present; otherwise resolve the subclass
(`_find_subclass` succeeds exactly for the name `webhook`, case-
insensitively, the sole subclass being `WebhookAlertChannel`; `none`
models the `KeyError`), construct a fresh instance, run `prepare()`
once, and cache it via `setdefault`. -/
def AlertChannel.load (st : ChannelState) (name : String) :
    ChannelState × Option Nat :=
  match st.cache.lookup name with
  | some inst => (st, some inst)
  | none =>
    if lowerStr name = "webhook" then
      (⟨st.cache ++ [(name, st.nextId)], st.nextId + 1, st.prepLog ++ [st.nextId]⟩,
       some st.nextId)
    else (st, none)

/-- Spec-side reading of one condition against the evaluation dict: the
comparison of the claim, with the `_p` redirection for percentage
thresholds; an unresolvable variable simply does not match. -/
def condHolds (du : PyDict ℚ) (c : Condition) : Bool :=
  match getCI du (resolvedVar c) with
  | some x => c.op.apply x c.thr.val
  | none => false

/-- Spec-side description of evaluation: the `raw_text` of the first
condition (in declaration order) whose comparison is true, absence
otherwise. -/
def specFirstMatch (conds : List Condition) (du : PyDict ℚ) : Option String :=
  (conds.find? (condHolds du)).map Condition.raw

/-- Lookup after an in-place replacement at key `k` finds the new value
whenever `k` is a stored key. -/
theorem lookup_map_replace_self {α : Type} (m : PyDict α) (k : String) (v : α) :
    (m.map Prod.fst).contains k = true →
    (m.map (fun p => if p.1 = k then (k, v) else p)).lookup k = some v := by
  induction m with
  | nil => intro h; simp at h
  | cons p m ih =>
    obtain ⟨pk, pv⟩ := p
    intro h
    by_cases hp : pk = k
    · subst hp
      simp only [List.map_cons]
      rw [if_pos trivial]
      simp [List.lookup]
    · have hm : (m.map Prod.fst).contains k = true := by
        simp only [List.map_cons, List.contains_cons] at h
        rcases Bool.or_eq_true_iff.mp h with h1 | h1
        · exact absurd (beq_iff_eq.mp h1).symm hp
        · exact h1
      have hb : (k == pk) = false :=
        beq_eq_false_iff_ne.mpr (fun hk => hp hk.symm)
      simp only [List.map_cons]
      rw [show (if (pk, pv).1 = k then (k, v) else (pk, pv)) = (pk, pv) from if_neg hp]
      simp only [List.lookup, hb]
      exact ih hm

/-- Lookup after an in-place replacement at key `k` is unchanged at any
other key. -/
theorem lookup_map_replace_other {α : Type} (m : PyDict α) (k k' : String) (v : α)
    (h : k' ≠ k) :
    (m.map (fun p => if p.1 = k then (k, v) else p)).lookup k' = m.lookup k' := by
  induction m with
  | nil => simp
  | cons p m ih =>
    obtain ⟨pk, pv⟩ := p
    by_cases hp : pk = k
    · subst hp
      have hb : (k' == pk) = false := beq_eq_false_iff_ne.mpr h
      simp only [List.map_cons]
      rw [if_pos trivial]
      simp only [List.lookup, hb]
      exact ih
    · simp only [List.map_cons]
      rw [show (if (pk, pv).1 = k then (k, v) else (pk, pv)) = (pk, pv) from if_neg hp]
      simp only [List.lookup]
      by_cases hq : (k' == pk) = true
      · simp [hq]
      · simp only [Bool.not_eq_true] at hq
        simp only [hq]
        exact ih

/-- Lookup of the appended key in an append-based insertion. -/
theorem lookup_append_self {α : Type} (m : PyDict α) (k : String) (v : α) :
    (m.map Prod.fst).contains k = false →
    (m ++ [(k, v)]).lookup k = some v := by
  induction m with
  | nil => intro _; simp [List.lookup]
  | cons p m ih =>
    intro h
    have hp : ¬ (k == p.1) = true := by
      intro hk
      simp [List.contains_cons, beq_iff_eq.mp hk] at h
    have hm : (m.map Prod.fst).contains k = false := by
      simp only [List.map_cons, List.contains_cons, Bool.or_eq_false_iff] at h
      exact h.2
    simp only [Bool.not_eq_true] at hp
    simp only [List.cons_append, List.lookup, hp]
    exact ih hm

/-- Lookup of any other key in an append-based insertion. -/
theorem lookup_append_other {α : Type} (m : PyDict α) (k k' : String) (v : α)
    (h : k' ≠ k) : (m ++ [(k, v)]).lookup k' = m.lookup k' := by
  induction m with
  | nil => simp [List.lookup, beq_eq_false_iff_ne.mpr h]
  | cons p m ih =>
    simp only [List.cons_append, List.lookup]
    by_cases hq : (k' == p.1) = true
    · simp [hq]
    · simp only [Bool.not_eq_true] at hq
      simp only [hq]
      exact ih

/-- Lookup of the key just written by a plain-dict assignment. -/
theorem dictSet_lookup_self {α : Type} (m : PyDict α) (k : String) (v : α) :
    (dictSet m k v).lookup k = some v := by
  unfold dictSet
  by_cases h : (m.map Prod.fst).contains k = true
  · simp only [h, if_true]
    exact lookup_map_replace_self m k v h
  · simp only [h, if_false]
    exact lookup_append_self m k v (Bool.not_eq_true _ ▸ h)

/-- Lookup of any other key is untouched by a plain-dict assignment. -/
theorem dictSet_lookup_other {α : Type} (m : PyDict α) (k k' : String) (v : α)
    (h : k' ≠ k) : (dictSet m k v).lookup k' = m.lookup k' := by
  unfold dictSet
  by_cases hc : (m.map Prod.fst).contains k = true
  · simp only [hc, if_true]
    exact lookup_map_replace_other m k k' v h
  · simp only [hc, if_false]
    exact lookup_append_other m k k' v h

/-- Folding digits onto an already-accumulated value, the accumulator
form of `digitsToNat` used by the scanner. -/
def digitsFrom (acc : Nat) (ds : List Char) : Nat :=
  ds.foldl (fun a c => a * 10 + (c.toNat - 48)) acc

/-- Unit letters are not digits (needed for the maximality of a pair's
digit run). -/
theorem unitSeconds_not_digit {u : Char} {k : Nat} (h : unitSeconds u = some k) :
    u.isDigit = false := by
  unfold unitSeconds at h
  split_ifs at h with h1 h2 h3 h4
  · subst h1; decide
  · subst h2; decide
  · subst h3; decide
  · subst h4; decide

/-- A nonzero digit is never a whitespace character. -/
theorem nonzeroDigit_not_space {c : Char} (h : isNonzeroDigit c = true) :
    isPySpace c = false := by
  cases hs : isPySpace c with
  | false => rfl
  | true =>
    exfalso
    simp only [isPySpace, Bool.or_eq_true, decide_eq_true_eq] at hs
    rcases hs with (((((h1 | h1) | h1) | h1) | h1) | h1) <;> subst h1 <;>
      exact absurd h (by decide)

/-- Peeling the leading digit off `digitsToNat`. -/
theorem digitsToNat_cons (d : Char) (ds : List Char) :
    digitsToNat (d :: ds) = digitsFrom (d.toNat - 48) ds := by
  simp [digitsToNat, digitsFrom, List.foldl]

/-- Completeness of the in-pair scanner state: a digit run followed by
a unit and a matching tail is accepted with the expected sum. -/
theorem scanStep_num_complete (ds : List Char) (hds : ∀ c ∈ ds, c.isDigit = true)
    {u : Char} {k : Nat} (hu : unitSeconds u = some k)
    {rest : List Char} {t : Nat} (hrest : scanStep .top rest = some t)
    (acc : Nat) :
    scanStep (.num acc) (ds ++ u :: rest) = some (digitsFrom acc ds * k + t) := by
  induction ds generalizing acc with
  | nil =>
    simp only [List.nil_append, scanStep, unitSeconds_not_digit hu, Bool.false_eq_true,
      if_false, hu, hrest, Option.map_some]
    rfl
  | cons d ds ih =>
    have hd : d.isDigit = true := hds d (by simp)
    simp only [List.cons_append, scanStep, hd, if_true]
    exact ih (fun c hc => hds c (by simp [hc])) _

/-- Completeness of the scanner: every decomposition of the input into
whitespace and pairs is accepted, with the pair sum as result. -/
theorem scanStep_top_complete {l : List Char} {t : Nat} (h : IntervalSum l t) :
    scanStep .top l = some t := by
  induction h with
  | nil => rfl
  | @ws c l t hc hprev ih =>
    simp only [scanStep, hc, if_true]
    exact ih
  | @pair d ds u k l t h1 h2 h3 hprev ih =>
    simp only [scanStep, nonzeroDigit_not_space h1, Bool.false_eq_true, if_false, h1, if_true]
    rw [digitsToNat_cons]
    exact scanStep_num_complete ds h2 h3 ih _

/-- Soundness of the scanner, by strong induction on the input length:
an accepted input in the `top` state satisfies `IntervalSum`; an
accepted input in an in-pair state decomposes as remaining digits, a
unit, and a matching tail. -/
theorem scanStep_sound (n : Nat) :
    ∀ l : List Char, l.length ≤ n →
      (∀ t, scanStep .top l = some t → IntervalSum l t) ∧
      (∀ acc t, scanStep (.num acc) l = some t →
        ∃ ds u k rest t1, l = ds ++ u :: rest ∧ (∀ c ∈ ds, c.isDigit = true) ∧
          unitSeconds u = some k ∧ IntervalSum rest t1 ∧
          t = digitsFrom acc ds * k + t1) := by
  induction n with
  | zero =>
    intro l hl
    have hnil : l = [] := List.length_eq_zero.mp (Nat.le_zero.mp hl)
    subst hnil
    constructor
    · intro t ht
      simp only [scanStep, Option.some.injEq] at ht
      rw [← ht]
      exact .nil
    · intro acc t ht
      simp [scanStep] at ht
  | succ n ih =>
    intro l hl
    cases l with
    | nil =>
      constructor
      · intro t ht
        simp only [scanStep, Option.some.injEq] at ht
        rw [← ht]
        exact .nil
      · intro acc t ht
        simp [scanStep] at ht
    | cons c cs =>
      have hcs : cs.length ≤ n := by
        simp only [List.length_cons] at hl
        omega
      constructor
      · intro t ht
        by_cases hsp : isPySpace c = true
        · simp only [scanStep, hsp, if_true] at ht
          exact .ws hsp ((ih cs hcs).1 t ht)
        · by_cases hnz : isNonzeroDigit c = true
          · simp only [scanStep, hsp, Bool.false_eq_true, if_false, hnz, if_true] at ht
            obtain ⟨ds, u, k, rest, t1, heq, hds, hu, hsum, hteq⟩ :=
              (ih cs hcs).2 (c.toNat - 48) t ht
            subst heq
            rw [hteq, ← digitsToNat_cons]
            exact .pair hnz hds hu hsum
          · simp only [scanStep, hsp, Bool.false_eq_true, if_false, hnz] at ht
            exact absurd ht (by simp)
      · intro acc t ht
        by_cases hd : c.isDigit = true
        · simp only [scanStep, hd, if_true] at ht
          obtain ⟨ds, u, k, rest, t1, heq, hds, hu, hsum, hteq⟩ :=
            (ih cs hcs).2 (acc * 10 + (c.toNat - 48)) t ht
          subst heq
          refine ⟨c :: ds, u, k, rest, t1, rfl, ?_, hu, hsum, hteq⟩
          intro x hx
          rcases List.mem_cons.mp hx with hx | hx
          · rw [hx]; exact hd
          · exact hds x hx
        · cases hu : unitSeconds c with
          | none => simp [scanStep, hd, hu] at ht
          | some k =>
            simp only [scanStep, hd, Bool.false_eq_true, if_false, hu] at ht
            obtain ⟨t1, ht1, hteq⟩ := Option.map_eq_some'.mp ht
            exact ⟨[], c, k, cs, t1, rfl, by simp, hu,
              (ih cs hcs).1 t1 ht1, by rw [← hteq]; rfl⟩

/-- Equivalence between the executable interval scanner and the
declarative grammar-with-sum relation. -/
theorem scanInterval_iff (l : List Char) (t : Nat) :
    scanInterval l = some t ↔ IntervalSum l t :=
  ⟨fun h => (scanStep_sound l.length l le_rfl).1 t h, scanStep_top_complete⟩

/-- The parse loop fails whenever any fragment fails. -/
theorem parseAll_none {fs : List String} {f : String}
    (hmem : f ∈ fs) (hf : parseCond f = none) : parseAll fs = none := by
  induction fs with
  | nil => cases hmem
  | cons g gs ih =>
    rcases List.mem_cons.mp hmem with h | h
    · subst h
      simp [parseAll, hf]
    · unfold parseAll
      cases hg : parseCond g with
      | none => rfl
      | some c => simp [ih h]

/-- The parse loop succeeds whenever every fragment parses. -/
theorem parseAll_total {fs : List String}
    (h : ∀ f ∈ fs, parseCond f ≠ none) : ∃ cs, parseAll fs = some cs := by
  induction fs with
  | nil => exact ⟨[], rfl⟩
  | cons g gs ih =>
    obtain ⟨cs, hcs⟩ := ih (fun f hf => h f (by simp [hf]))
    cases hg : parseCond g with
    | none => exact absurd hg (h g (by simp))
    | some c => exact ⟨c :: cs, by simp [parseAll, hg, hcs]⟩

/-- A successful parse yields one condition per fragment, in order. -/
theorem parseAll_some {fs : List String} {cs : List Condition}
    (h : parseAll fs = some cs) :
    cs.length = fs.length ∧
    ∀ i (h1 : i < fs.length) (h2 : i < cs.length),
      parseCond (fs.get ⟨i, h1⟩) = some (cs.get ⟨i, h2⟩) := by
  induction fs generalizing cs with
  | nil =>
    simp only [parseAll, Option.some.injEq] at h
    subst h
    exact ⟨rfl, fun i h1 _ => absurd h1 (by simp)⟩
  | cons g gs ih =>
    unfold parseAll at h
    cases hg : parseCond g with
    | none =>
      rw [hg] at h
      exact absurd h (by simp)
    | some c =>
      rw [hg] at h
      cases hgs : parseAll gs with
      | none =>
        rw [hgs] at h
        exact absurd h (by simp)
      | some cs1 =>
        rw [hgs] at h
        simp only [Option.map_some', Option.some.injEq] at h
        subst h
        obtain ⟨hlen, hget⟩ := ih hgs
        refine ⟨by simp [hlen], ?_⟩
        intro i h1 h2
        cases i with
        | zero => simpa using hg
        | succ j =>
          simp only [List.get_cons_succ]
          exact hget j (by simpa using h1) (by simpa using h2)

/-- The evaluation loop agrees with the first-match description
whenever every condition's looked-up variable resolves. -/
theorem evalConds_first_match (conds : List Condition) (du : PyDict ℚ)
    (hres : ∀ c ∈ conds, (getCI du (resolvedVar c)).isSome = true) :
    evalConds conds du = .ok (specFirstMatch conds du) := by
  induction conds with
  | nil => rfl
  | cons c cs ih =>
    obtain ⟨x, hx⟩ := Option.isSome_iff_exists.mp (hres c (by simp))
    have hrest : ∀ c1 ∈ cs, (getCI du (resolvedVar c1)).isSome = true :=
      fun c1 hc1 => hres c1 (by simp [hc1])
    have happ : applyOpt c.op (getCI du (resolvedVar c)) c.thr.val
        = .ok (c.op.apply x c.thr.val) := by
      rw [hx]
      rfl
    have hhold : condHolds du c = c.op.apply x c.thr.val := by
      unfold condHolds
      rw [hx]
    unfold evalConds
    rw [happ]
    cases hb : c.op.apply x c.thr.val with
    | true =>
      have hh : condHolds du c = true := by rw [hhold, hb]
      simp [specFirstMatch, List.find?_cons_of_pos _ hh]
    | false =>
      have hh : condHolds du c = false := by rw [hhold, hb]
      have hfind : List.find? (condHolds du) (c :: cs) = List.find? (condHolds du) cs :=
        List.find?_cons_of_neg cs (by simp [hh])
      have hsk : specFirstMatch (c :: cs) du = specFirstMatch cs du := by
        simp [specFirstMatch, hfind]
      rw [hsk]
      exact ih hrest

/-- Lookup distributes to the right part of an append when the left
part misses the key. -/
theorem lookup_append_of_none {α : Type} (m1 m2 : PyDict α) (k : String)
    (h : m1.lookup k = none) : (m1 ++ m2).lookup k = m2.lookup k := by
  induction m1 with
  | nil => simp
  | cons p m ih =>
    obtain ⟨pk, pv⟩ := p
    simp only [List.lookup, List.cons_append] at h ⊢
    cases hk : (k == pk) with
    | true => rw [hk] at h; simp at h
    | false =>
      rw [hk] at h
      exact ih h

/-- C1: the spec says evaluation validates `used`/`free`/`total`
case-insensitively, but `CaseInsensitiveDict.__contains__` compares the
original-cased stored key against the lower-cased key list, so a sample
whose keys are stored with any uppercase letter (here `Used`, `Free`,
`Total`) fails validation and `AlertCheck.__call__` raises
`ValueError` — even though the same dict's `get` resolves all three
fields case-insensitively.  This contradicts the evident contract of
`CaseInsensitiveDict` (its `__getitem__`/`get` are case-insensitive):
a code bug in `__contains__`. -/
theorem C1_contains_case_bug :
    getCI [("Used", (1 : ℚ)), ("Free", 1), ("Total", 2)] "used" = some 1
    ∧ getCI [("Used", (1 : ℚ)), ("Free", 1), ("Total", 2)] "free" = some 1
    ∧ getCI [("Used", (1 : ℚ)), ("Free", 1), ("Total", 2)] "total" = some 2
    ∧ validate_params [("Used", (1 : ℚ)), ("Free", 1), ("Total", 2)] = false
    ∧ AlertCheck.call [⟨"used", Op.gt, Thresh.size 10, "used>10"⟩]
        [("Used", (1 : ℚ)), ("Free", 1), ("Total", 2)] = .error .valueError := by
  decide

/-- C2: `push(identifier, message)` first overwrites
`pending[identifier]` (leaving other identifiers untouched); when the
wall clock has reached `next_flush_time` it fires the whole pending
mapping exactly once, clears it and moves the deadline to
`now + interval`; otherwise it fires nothing and leaves the deadline
unchanged; and with `next_flush_time = 0` a first push at any
nonnegative time flushes immediately. -/
theorem C2_push_batching (st : AlertBuffer) (now : ℚ) (identifier data : String) :
    ((dictSet st.buffer identifier data).lookup identifier = some data)
    ∧ (∀ k, k ≠ identifier →
        (dictSet st.buffer identifier data).lookup k = st.buffer.lookup k)
    ∧ (st.next_time ≤ now →
        st.push now identifier data =
          (⟨st.interval, now + st.interval, []⟩, some (dictSet st.buffer identifier data)))
    ∧ (now < st.next_time →
        st.push now identifier data =
          (⟨st.interval, st.next_time, dictSet st.buffer identifier data⟩, none))
    ∧ (st.next_time = 0 → 0 ≤ now → (st.push now identifier data).2 ≠ none) := by
  refine ⟨dictSet_lookup_self _ _ _, fun k hk => dictSet_lookup_other _ _ _ _ hk,
    ?_, ?_, ?_⟩
  · intro h
    simp [AlertBuffer.push, h]
  · intro h
    simp [AlertBuffer.push, not_le.mpr h]
  · intro h0 hnow
    have hle : st.next_time ≤ now := by rw [h0]; exact hnow
    simp [AlertBuffer.push, hle]

/-- Witness for C2 at concrete inputs: a first push at `t = 0` with
`next_time = 0` flushes, and a push before the deadline only
accumulates (overwriting the identifier's previous message). -/
theorem C2_witness :
    (AlertBuffer.push ⟨10, 0, []⟩ 0 "host" "disk full").2 = some [("host", "disk full")]
    ∧ AlertBuffer.push ⟨10, 12, [("host", "old")]⟩ 5 "host" "new"
        = (⟨10, 12, [("host", "new")]⟩, none) := by
  constructor
  · rw [(C2_push_batching ⟨10, 0, []⟩ 0 "host" "disk full").2.2.1 (by norm_num)]
    rfl
  · have h := (C2_push_batching ⟨10, 12, [("host", "old")]⟩ 5 "host" "new").2.2.2.1
      (by norm_num)
    rw [h]
    rfl

/-- C3 counterexample: the claim promises that for every successfully
constructed checker and every valid sample evaluation returns the first
matching condition's `raw_text` or the no-alert absence value; but the
grammar accepts `foo>5`, whose variable resolves to nothing in the
sample, and evaluation then raises `TypeError` instead of returning
either outcome. -/
theorem C3_counterexample :
    AlertCheck.parse "foo>5" = some [⟨"foo", Op.gt, Thresh.size 5, "foo>5"⟩]
    ∧ AlertCheck.call [⟨"foo", Op.gt, Thresh.size 5, "foo>5"⟩]
        [("total", (100 : ℚ)), ("used", 50), ("free", 50)] = .error .typeError
    ∧ ∀ r : Option String,
        AlertCheck.call [⟨"foo", Op.gt, Thresh.size 5, "foo>5"⟩]
          [("total", (100 : ℚ)), ("used", 50), ("free", 50)] ≠ .ok r := by
  have h2 : AlertCheck.call [⟨"foo", Op.gt, Thresh.size 5, "foo>5"⟩]
      [("total", (100 : ℚ)), ("used", 50), ("free", 50)] = .error .typeError := by
    decide
  refine ⟨by decide, h2, ?_⟩
  intro r h
  rw [h2] at h
  exact Except.noConfusion h

/-- C3 (amended): for every constructed checker and valid sample with
nonzero total, provided additionally that every condition's resolved
variable (the raw field, or the `_p`-suffixed field for a
percentage-typed condition) is present in the extended evaluation dict,
evaluation walks the conditions in declaration order, compares
percentage thresholds against the `_p` field and absolute thresholds
against the raw field, and returns the `raw_text` of the first
condition whose comparison is true, or the no-alert absence value. -/
theorem C3_first_match (conds : List Condition) (sample du : PyDict ℚ)
    (hv : validate_params sample = true)
    (hdu : buildDu sample = .ok du)
    (hres : ∀ c ∈ conds, (getCI du (resolvedVar c)).isSome = true) :
    AlertCheck.call conds sample = .ok (specFirstMatch conds du) := by
  have hcall : AlertCheck.call conds sample = evalConds conds du := by
    unfold AlertCheck.call
    rw [hv, hdu]
    rfl
  rw [hcall]
  exact evalConds_first_match conds du hres

/-- Witness for C3 at a concrete input: the second condition of the
repository's own test set (`free < 5G`) matches a 96%-full disk and its
raw text is returned. -/
theorem C3_witness :
    AlertCheck.call [⟨"free", Op.lt, Thresh.size 5368709120, "free<5G"⟩]
      [("total", (107374182400 : ℚ)), ("used", 103079215104), ("free", 4294967296)]
      = .ok (some "free<5G") := by
  have h := C3_first_match
    [⟨"free", Op.lt, Thresh.size 5368709120, "free<5G"⟩]
    [("total", (107374182400 : ℚ)), ("used", 103079215104), ("free", 4294967296)]
    (setCI (setCI [("total", (107374182400 : ℚ)), ("used", 103079215104),
        ("free", 4294967296)]
      "used_p" ((103079215104 : ℚ) / 107374182400))
      "free_p" ((4294967296 : ℚ) / 107374182400))
    (by decide) rfl (by decide)
  rw [h]
  rfl

/-- C4: `parse_time_interval` returns the integer itself on any string
`int(...)` accepts; on anything else it succeeds exactly on nonempty
strings decomposable into `<positive-int><unit>` pairs (units
`s/m/h/d`) and whitespace — returning the sum of `value*unit_seconds`
over the pairs — and fails with the Python `ValueError` (`ParseError`)
otherwise; concretely `1s1m1h ↦ 3661` and `1d ↦ 86400`. -/
theorem C4_parse_interval (s : String) :
    (∀ n : Int, pyInt s = some n → parse_time_interval s = .ok n)
    ∧ (pyInt s = none → s.data ≠ [] → ∀ t : Nat, IntervalSum s.data t →
        parse_time_interval s = .ok (t : Int))
    ∧ (pyInt s = none → (s.data = [] ∨ ¬ ∃ t, IntervalSum s.data t) →
        parse_time_interval s = .error .valueError)
    ∧ parse_time_interval "1s1m1h" = .ok 3661
    ∧ parse_time_interval "1d" = .ok 86400 := by
  refine ⟨?_, ?_, ?_, by decide, by decide⟩
  · intro n h
    unfold parse_time_interval
    rw [h]
  · intro hint hne t hsum
    have hie : s.data.isEmpty = false := by
      cases hd : s.data with
      | nil => exact absurd hd hne
      | cons a l => rfl
    have hscan : scanInterval s.data = some t := (scanInterval_iff _ _).mpr hsum
    simp [parse_time_interval, hint, hie, hscan]
  · intro hint hcase
    rcases hcase with hnil | hno
    · simp [parse_time_interval, hint, hnil]
    · have hne : s.data ≠ [] := by
        intro hd
        exact hno ⟨0, hd ▸ IntervalSum.nil⟩
      have hie : s.data.isEmpty = false := by
        cases hd : s.data with
        | nil => exact absurd hd hne
        | cons a l => rfl
      have hscan : scanInterval s.data = none := by
        cases hs : scanInterval s.data with
        | none => rfl
        | some t => exact absurd ⟨t, (scanInterval_iff _ _).mp hs⟩ hno
      simp [parse_time_interval, hint, hie, hscan]

/-- Witness for C4 at concrete inputs: a plain integer, a mixed
interval string with its unit sum, and a failing string. -/
theorem C4_witness :
    parse_time_interval "42" = .ok 42
    ∧ parse_time_interval "1h30m" = .ok 5400
    ∧ parse_time_interval "bogus" = .error .valueError := by
  refine ⟨(C4_parse_interval "42").1 42 (by decide), ?_, ?_⟩
  · have hsum : IntervalSum "1h30m".data 5400 :=
      @IntervalSum.pair '1' [] 'h' 3600 ['3', '0', 'm'] 1800 (by decide) (by decide)
        (by decide)
        (@IntervalSum.pair '3' ['0'] 'm' 60 [] 0 (by decide) (by decide) (by decide)
          IntervalSum.nil)
    exact (C4_parse_interval "1h30m").2.1 (by decide) (by decide) 5400 hsum
  · refine (C4_parse_interval "bogus").2.2.1 (by decide) (Or.inr ?_)
    rintro ⟨t, hsum⟩
    have hs := scanStep_top_complete hsum
    rw [show scanStep ScanSt.top "bogus".data = none from rfl] at hs
    exact Option.noConfusion hs

/-- C5: `parse_size_string` scales the integer prefix by
`1024 ^ (index + 1)` when the (upper-cased) last character occurs at
0-based `index` in `KMGTPEZY` — i.e. by `1024 ^ rank` for the 1-based
rank — parses the whole string as an integer when the last character is
no suffix, and fails with the Python `ValueError` (`ParseError`)
whenever the relevant integer parse fails; concretely
`5G ↦ 5 * 1024 ^ 3` and `1024 ↦ 1024`. -/
theorem C5_parse_size (s : String) :
    (∀ last i n, s.data.getLast? = some last → suffixIdx last.toUpper = some i →
        pyInt (String.mk s.data.dropLast) = some n →
        parse_size_string s = .ok (n * 1024 ^ (i + 1)))
    ∧ (∀ last i, s.data.getLast? = some last → suffixIdx last.toUpper = some i →
        pyInt (String.mk s.data.dropLast) = none →
        parse_size_string s = .error .valueError)
    ∧ (∀ last n, s.data.getLast? = some last → suffixIdx last.toUpper = none →
        pyInt s = some n → parse_size_string s = .ok n)
    ∧ (∀ last, s.data.getLast? = some last → suffixIdx last.toUpper = none →
        pyInt s = none → parse_size_string s = .error .valueError)
    ∧ parse_size_string "5G" = .ok (5 * 1024 ^ 3)
    ∧ parse_size_string "1024" = .ok 1024 := by
  refine ⟨?_, ?_, ?_, ?_, by decide, by decide⟩
  · intro last i n h1 h2 h3
    simp [parse_size_string, h1, h2, h3]
  · intro last i h1 h2 h3
    simp [parse_size_string, h1, h2, h3]
  · intro last n h1 h2 h3
    simp [parse_size_string, h1, h2, h3]
  · intro last h1 h2 h3
    simp [parse_size_string, h1, h2, h3]

/-- Witness for C5 at concrete inputs: the suffixed case at `5G` (rank
3 for `G`), and the plain-integer fallback at `1024`. -/
theorem C5_witness :
    parse_size_string "5G" = .ok (5 * 1024 ^ (2 + 1))
    ∧ parse_size_string "1024" = .ok 1024
    ∧ parse_size_string "xK" = .error .valueError := by
  refine ⟨(C5_parse_size "5G").1 'G' 2 5 (by decide) (by decide) (by decide),
    (C5_parse_size "1024").2.2.1 '4' 1024 (by decide) (by decide) (by decide),
    (C5_parse_size "xK").2.1 'K' 0 (by decide) (by decide) (by decide)⟩

/-- C6: constructing an `AlertCheck` fails atomically — no condition
list is produced — as soon as any comma-separated fragment fails the
condition regex; and for every string whose fragments all match,
construction succeeds and the parsed list has one condition per
fragment, in declaration order. -/
theorem C6_parse_atomicity (s : String) :
    ((∃ frag, frag ∈ splitConds s ∧ parseCond frag = none) →
        AlertCheck.parse s = none)
    ∧ ((∀ frag ∈ splitConds s, parseCond frag ≠ none) →
        ∃ cs, AlertCheck.parse s = some cs)
    ∧ ∀ cs, AlertCheck.parse s = some cs →
        cs.length = (splitConds s).length ∧
        ∀ i (h1 : i < (splitConds s).length) (h2 : i < cs.length),
          parseCond ((splitConds s).get ⟨i, h1⟩) = some (cs.get ⟨i, h2⟩) := by
  refine ⟨?_, ?_, ?_⟩
  · rintro ⟨frag, hmem, hfail⟩
    exact parseAll_none hmem hfail
  · intro hall
    exact parseAll_total hall
  · intro cs h
    exact parseAll_some h

/-- Witness for C6 at concrete inputs: one bad fragment poisons the
whole construction, and a fully valid string constructs successfully
and parses fragment-wise in order. -/
theorem C6_witness :
    AlertCheck.parse "used>10,bogus" = none
    ∧ (∃ cs, AlertCheck.parse "used>10, free<5" = some cs)
    ∧ AlertCheck.parse "used>10, free<5" =
        some [⟨"used", Op.gt, Thresh.size 10, "used>10"⟩,
          ⟨"free", Op.lt, Thresh.size 5, "free<5"⟩]
    ∧ parseCond ((splitConds "used>10, free<5").get ⟨1, by decide⟩)
        = some ⟨"free", Op.lt, Thresh.size 5, "free<5"⟩ := by
  refine ⟨(C6_parse_atomicity "used>10,bogus").1 ⟨"bogus", by decide, by decide⟩,
    (C6_parse_atomicity "used>10, free<5").2.1 (by decide),
    by decide, ?_⟩
  exact ((C6_parse_atomicity "used>10, free<5").2.2
    [⟨"used", Op.gt, Thresh.size 10, "used>10"⟩,
      ⟨"free", Op.lt, Thresh.size 5, "free<5"⟩]
    (by decide)).2 1 (by decide) (by decide)

/-- C7: resolving the same channel name twice yields the same instance
— the second resolution hits the `_channel_cache` — and `prepare()`
runs exactly once across both resolutions: on a fresh, resolvable name
the `prepare` log grows by exactly the one new instance, and a cached
resolution changes nothing. -/
theorem C7_channel_cache (st : ChannelState) (name : String) :
    ((AlertChannel.load (AlertChannel.load st name).1 name).2
        = (AlertChannel.load st name).2)
    ∧ (∀ inst, st.cache.lookup name = some inst →
        AlertChannel.load st name = (st, some inst))
    ∧ (st.cache.lookup name = none → lowerStr name = "webhook" →
        (AlertChannel.load st name).2 = some st.nextId
        ∧ (AlertChannel.load (AlertChannel.load st name).1 name).1.prepLog
            = st.prepLog ++ [st.nextId]
        ∧ (AlertChannel.load (AlertChannel.load st name).1 name).2
            = some st.nextId) := by
  have hload : ∀ inst, st.cache.lookup name = some inst →
      AlertChannel.load st name = (st, some inst) := by
    intro inst h
    simp [AlertChannel.load, h]
  have hfresh : st.cache.lookup name = none → lowerStr name = "webhook" →
      AlertChannel.load st name =
        (⟨st.cache ++ [(name, st.nextId)], st.nextId + 1,
          st.prepLog ++ [st.nextId]⟩, some st.nextId) := by
    intro hl hw
    simp [AlertChannel.load, hl, hw]
  have hsecond : st.cache.lookup name = none → lowerStr name = "webhook" →
      AlertChannel.load (AlertChannel.load st name).1 name =
        ((AlertChannel.load st name).1, some st.nextId) := by
    intro hl hw
    rw [hfresh hl hw]
    have h2 : (st.cache ++ [(name, st.nextId)]).lookup name = some st.nextId := by
      rw [lookup_append_of_none _ _ _ hl]
      simp [List.lookup]
    simp [AlertChannel.load, h2]
  refine ⟨?_, hload, ?_⟩
  · cases hl : st.cache.lookup name with
    | some inst =>
      rw [hload inst hl]
      simp [hload inst hl]
    | none =>
      by_cases hw : lowerStr name = "webhook"
      · rw [hsecond hl hw, hfresh hl hw]
      · simp [AlertChannel.load, hl, hw]
  · intro hl hw
    refine ⟨by rw [hfresh hl hw], ?_, by rw [hsecond hl hw, hfresh hl hw]⟩
    rw [hsecond hl hw, hfresh hl hw]

/-- Witness for C7 at a concrete state: from an empty cache, loading
`webhook` twice returns instance `0` both times and logs exactly one
`prepare()` call. -/
theorem C7_witness :
    (AlertChannel.load ⟨[], 0, []⟩ "webhook").2 = some 0
    ∧ (AlertChannel.load (AlertChannel.load ⟨[], 0, []⟩ "webhook").1 "webhook").2
        = some 0
    ∧ (AlertChannel.load (AlertChannel.load ⟨[], 0, []⟩ "webhook").1 "webhook").1.prepLog
        = [0] := by
  have h := (C7_channel_cache ⟨[], 0, []⟩ "webhook").2.2 (by decide) (by decide)
  exact ⟨h.1, h.2.2, by rw [h.2.1]; rfl⟩

/-- C8: the buffer's only mutating operation is `push` (the class has
no timer), so a run with no pushes fires nothing and leaves the state —
in particular any pending alerts past the deadline — untouched, and a
run of `n` pushes fires at most `n` batches. -/
theorem C8_flush_only_on_push (st : AlertBuffer) (evts : List PushEvt) :
    runPushes st [] = (st, []) ∧ (runPushes st evts).2.length ≤ evts.length := by
  refine ⟨rfl, ?_⟩
  induction evts generalizing st with
  | nil => simp [runPushes]
  | cons e rest ih =>
    simp only [runPushes, List.length_cons, List.length_append]
    have hrec := ih (st.push e.now e.identifier e.data).1
    cases hf : (st.push e.now e.identifier e.data).2 with
    | none =>
      simp only [List.length_nil]
      omega
    | some m =>
      simp only [List.length_cons, List.length_nil]
      omega

/-- C9: the condition grammar accepts any `\w+` identifier as the
variable — here `TOTAL` (whose percentage lookup becomes the absent
`TOTAL_p`) and the arbitrary `foo` — and on a valid sample the
evaluation's `du.get(var)` then yields the missing-value sentinel, so
the ordered comparison raises an unhandled `TypeError` instead of
producing a match result or an `InvalidSampleError`. -/
theorem C9_unknown_variable_crash :
    AlertCheck.parse "TOTAL > 95%" =
      some [⟨"TOTAL", Op.gt, Thresh.pct (((95 : Int) : ℚ) / 100), "TOTAL > 95%"⟩]
    ∧ AlertCheck.parse "foo > 5" = some [⟨"foo", Op.gt, Thresh.size 5, "foo > 5"⟩]
    ∧ validate_params [("total", (100 : ℚ)), ("used", 50), ("free", 50)] = true
    ∧ AlertCheck.call [⟨"TOTAL", Op.gt, Thresh.pct (((95 : Int) : ℚ) / 100), "TOTAL > 95%"⟩]
        [("total", (100 : ℚ)), ("used", 50), ("free", 50)] = .error .typeError
    ∧ AlertCheck.call [⟨"foo", Op.gt, Thresh.size 5, "foo > 5"⟩]
        [("total", (100 : ℚ)), ("used", 50), ("free", 50)] = .error .typeError := by
  exact ⟨rfl, rfl, by decide, by decide, by decide⟩

/-- C10: `parse_size_string` applied to the empty string hits the
unguarded `s[-1]` and raises `IndexError` — not the `ValueError`
(`ParseError`) prescribed for an invalid numeric prefix. -/
theorem C10_empty_size_crash :
    parse_size_string "" = .error .indexError
    ∧ parse_size_string "" ≠ .error .valueError := by
  decide
